import Mathlib

/-!
The thread-affine call dispatcher of `blink.go`

A shallow embedding of the dispatcher in `src/blink.go`:
`findProc`, `doCallFunc`, `CallFunc`, `CallFuncFirst`, `CallFuncAsync`,
`CallFuncAsyncFirst`, `CallFuncJob.Wait`, `AddJob`, `AddLoop` and one iteration
of the `for { select { ... } }` loop started by `loopJobLoops`.

Conventions.
* `uintptr` values are natural numbers; the code only carries them around.
* A Go panic is an explicit `Outcome.panicked v`, `v` being the panic value.
* Go channels reachable from the endpoint are part of the state: result
  channels (`make(chan CallFuncResult, 1)`) are identified by a number and
  their buffered values are kept in `results`; closed `done` channels are
  kept in `closed`.
* Closures (`func()`) given to `AddJob` and `AddLoop` act on the host
  application; they are total transformers of a host state `W`.
* `select` chooses among the ready communications pseudo-randomly (Go
  language specification); the choice is the explicit argument `pick`.
* The native library (`golang.org/x/sys/windows`, the DLL itself) is an
  external collaborator and is a parameter `dll`.
-/

namespace BlinkModel

/-! ## Go values -/

/-- Values of Go type `error` that reach the dispatcher. -/
inductive GoError where
  /-- a `syscall.Errno` -/
  | errno (n : Nat)
  /-- the `*windows.DLLError` built by `DLL.FindProc` for a missing procedure -/
  | dllError (name : String)
  /-- a `*runtime.TypeAssertionError` -/
  | typeAssertion
  /-- the runtime error of closing a closed channel -/
  | closeOfClosed
  /-- any other error value -/
  | other (msg : String)
  deriving DecidableEq, Repr

/-- Dynamic values of Go type `any`, as carried by a panic. -/
inductive GoValue where
  /-- a value whose dynamic type implements `error` -/
  | error (e : GoError)
  /-- a value whose dynamic type does not implement `error` (a string, ...) -/
  | nonError (repr : String)
  deriving DecidableEq, Repr

/-- The constant `windows.NOERROR`, the `syscall.Errno` zero. -/
def NOERROR : GoError := GoError.errno 0

/-- Result of running Go code that may panic. -/
inductive Outcome (α : Type) where
  | ret (a : α)
  | panicked (v : GoValue)
  deriving DecidableEq, Repr

/-- The `(r1, r2, err)` triple; `err = none` is Go's `nil`. -/
abbrev Triple := Nat × Nat × Option GoError

/-! ## The native library (external) -/

/-- A `*windows.Proc`: a resolved entry point. -/
structure Proc where
  addr : Nat
  deriving DecidableEq, Repr

/-- What `Proc.Call` does: it returns `(r1, r2, lastErr)` or it panics. -/
inductive NativeResult where
  | returned (r1 r2 : Nat) (err : Option GoError)
  | fault (v : GoValue)
  deriving DecidableEq, Repr

/-- A loaded `*windows.DLL`: symbol lookup and the (deterministic) behaviour
of each entry point on an argument list. -/
structure DLL where
  FindProc : String → Option Proc
  Call : Proc → List Nat → NativeResult

/-- `DLL.MustFindProc`: like `FindProc` but panics with the lookup error. -/
def DLL.MustFindProc (dll : DLL) (name : String) : Outcome Proc :=
  match dll.FindProc name with
  | some p => Outcome.ret p
  | none => Outcome.panicked (GoValue.error (GoError.dllError name))

/-! ## The call queue -/

/-- Modelled from the spec: package `pkg/queue` (type `queue.Queue`, with
`NewQueue`, `AddLast`, `AddFirst`, `Chan` and `First`) is not among the
sources. The spec describes a bounded double-ended queue: requests are
appended at the back or placed at the front, insertion fails at capacity, and
the next request is taken from the front. -/
structure Queue (α : Type) where
  cap : Nat
  items : List α
  deriving DecidableEq, Repr

/-- Modelled from the spec: `queue.NewQueue(cap)`, an empty queue of the given
capacity. -/
def NewQueue {α : Type} (cap : Nat) : Queue α := ⟨cap, []⟩

/-- Modelled from the spec: `appendLast`, which enqueues at the back and fails
(blocks or rejects: `none`) when the queue is at capacity. -/
def Queue.AddLast {α : Type} (q : Queue α) (x : α) : Option (Queue α) :=
  if q.items.length < q.cap then some { q with items := q.items ++ [x] } else none

/-- Modelled from the spec: `appendFirst`, priority insertion, which places the
request at the front and fails (`none`) when the queue is at capacity. -/
def Queue.AddFirst {α : Type} (q : Queue α) (x : α) : Option (Queue α) :=
  if q.items.length < q.cap then some { q with items := x :: q.items } else none

/-- Modelled from the spec: the non-blocking "has ready work" signal, the
readiness of `calls.Chan()`. -/
def Queue.ready {α : Type} (q : Queue α) : Bool := !q.items.isEmpty

/-- Modelled from the spec: `tryDequeue`, the `First()` of the value received
from `calls.Chan()`: the request at the front and the remaining queue. -/
def Queue.First {α : Type} (q : Queue α) : Option (α × Queue α) :=
  match q.items with
  | [] => none
  | x :: rest => some (x, { q with items := rest })

/-- The requests handed out by at most `fuel` successive `First`. -/
def Queue.drainGo {α : Type} : Nat → Queue α → List α
  | 0, _ => []
  | fuel + 1, q =>
    match q.First with
    | none => []
    | some (x, q') => x :: Queue.drainGo fuel q'

/-- The order in which repeated `First` hands out the pending requests. -/
def Queue.drain {α : Type} (q : Queue α) : List α :=
  Queue.drainGo q.items.length q

/-- One submission to the queue. -/
inductive Submit (α : Type) where
  | last (x : α)
  | first (x : α)
  deriving DecidableEq, Repr

/-- Perform one submission. -/
def Queue.submit {α : Type} (q : Queue α) : Submit α → Option (Queue α)
  | Submit.last x => q.AddLast x
  | Submit.first x => q.AddFirst x

/-- Perform submissions in sequence, nothing being dequeued meanwhile. -/
def Queue.submitAll {α : Type} (q : Queue α) : List (Submit α) → Option (Queue α)
  | [] => some q
  | s :: rest =>
    match q.submit s with
    | none => none
    | some q' => q'.submitAll rest

/-- The requests of a submission sequence inserted with `AddLast`, in order. -/
def lastsOf {α : Type} : List (Submit α) → List α
  | [] => []
  | Submit.last x :: rest => x :: lastsOf rest
  | Submit.first _ :: rest => lastsOf rest

/-- The requests of a submission sequence inserted with `AddFirst`, in order. -/
def firstsOf {α : Type} : List (Submit α) → List α
  | [] => []
  | Submit.last _ :: rest => firstsOf rest
  | Submit.first x :: rest => x :: firstsOf rest

/-! ## Data model of `blink.go` -/

/-- `type CallFuncResult struct { R1, R2 uintptr; Err error }`. -/
structure CallFuncResult where
  R1 : Nat
  R2 : Nat
  Err : Option GoError
  deriving DecidableEq, Repr

/-- `type CallFuncJob struct`: `result` is the identity of the job's
`chan CallFuncResult`. -/
structure CallFuncJob where
  funcName : String
  args : List Nat
  result : Nat
  deriving DecidableEq, Repr

/-- `type BlinkJob struct`: `done` is the identity of the job's `chan bool`. -/
structure BlinkJob (W : Type) where
  job : W → W
  done : Nat

/-- The procedure cache `map[string]*windows.Proc`. -/
abbrev Procs := List (String × Proc)

/-- The map read `mb.procs[name]`. -/
def Procs.get : Procs → String → Option Proc
  | [], _ => none
  | (k, v) :: m, n => if k = n then some v else Procs.get m n

/-- The map without the entry of `name`. -/
def Procs.erase : Procs → String → Procs
  | [], _ => []
  | (k, v) :: m, n => if k = n then Procs.erase m n else (k, v) :: Procs.erase m n

/-- The map write `mb.procs[name] = proc`. -/
def Procs.set (m : Procs) (name : String) (proc : Proc) : Procs :=
  (name, proc) :: m.erase name

/-- The dispatcher fields of `type Blink struct` together with the channels
and the host state they refer to. -/
structure Blink (W : Type) where
  procs : Procs
  threadID : Nat
  /-- contents of `jobs chan BlinkJob` (capacity 20) -/
  jobs : List (BlinkJob W)
  calls : Queue CallFuncJob
  jobLoops : List (W → W)
  /-- whether `Ctx.Done()` is closed, that is `CancelCtx` has been called -/
  cancelled : Bool
  /-- identity of the next channel made by `make` -/
  nextChan : Nat
  /-- values buffered in result channels, oldest send first -/
  results : List (Nat × CallFuncResult)
  /-- the `done` channels closed so far -/
  closed : List Nat
  /-- state of the host application the closures act on -/
  world : W

/-- Capacity of the `jobs` channel, `make(chan BlinkJob, 20)`. -/
def jobsCap : Nat := 20

/-- The `&Blink{...}` literal of `NewApp` (empty cache, empty `jobs`,
`queue.NewQueue(999)`, no loop job, live context), with the thread id the
loop records when it starts. -/
def emptyBlink {W : Type} (threadID : Nat) (world : W) : Blink W :=
  { procs := [], threadID := threadID, jobs := [], calls := NewQueue 999,
    jobLoops := [], cancelled := false, nextChan := 0, results := [],
    closed := [], world := world }

/-- `mb.CancelCtx()`: fire the cancellation signal. -/
def CancelCtx {W : Type} (s : Blink W) : Blink W := { s with cancelled := true }

/-! ## Call invoker -/

/-- `Blink.findProc`: cache lookup, else `MustFindProc` and cache fill. -/
def findProc (dll : DLL) (procs : Procs) (name : String) : Outcome Proc × Procs :=
  match procs.get name with
  | some proc => (Outcome.ret proc, procs)
  | none =>
    match dll.MustFindProc name with
    | Outcome.ret proc => (Outcome.ret proc, procs.set name proc)
    | Outcome.panicked v => (Outcome.panicked v, procs)

/-- The deferred function of `doCallFunc`, run with a recovered panic value
`r` while the named results hold `r1`, `r2`. -/
def recovered (r1 r2 : Nat) (r : GoValue) : Outcome Triple :=
  if r = GoValue.error NOERROR then
    Outcome.ret (r1, r2, none)
  else
    match r with
    | GoValue.error e => Outcome.ret (r1, r2, some e)
    | GoValue.nonError _ => Outcome.panicked (GoValue.error GoError.typeAssertion)

/-- `Blink.doCallFunc`. A panic of `findProc` or of `Call` happens before the
assignment to the named results, which are then still zero. -/
def doCallFunc (dll : DLL) (procs : Procs) (name : String) (args : List Nat) :
    Outcome Triple × Procs :=
  match findProc dll procs name with
  | (Outcome.panicked r, procs') => (recovered 0 0 r, procs')
  | (Outcome.ret proc, procs') =>
    match dll.Call proc args with
    | NativeResult.fault r => (recovered 0 0 r, procs')
    | NativeResult.returned r1 r2 err =>
      (Outcome.ret (r1, r2, if err = some NOERROR then none else err), procs')

/-! ## Synchronous facade -/

/-- The values buffered in result channel `ch`, oldest first. -/
def chanBuf (results : List (Nat × CallFuncResult)) (ch : Nat) : List CallFuncResult :=
  (results.filter (fun p => p.1 = ch)).map (fun p => p.2)

/-- Remove the oldest value buffered in channel `ch`. -/
def chanPop : List (Nat × CallFuncResult) → Nat → List (Nat × CallFuncResult)
  | [], _ => []
  | p :: rest, ch => if p.1 = ch then rest else p :: chanPop rest ch

/-- `CallFuncJob.Wait`: receive from the job's result channel; `none` while
the channel is empty (the caller stays blocked). -/
def CallFuncJob.Wait {W : Type} (cj : CallFuncJob) (s : Blink W) :
    Option (Triple × Blink W) :=
  match chanBuf s.results cj.result with
  | [] => none
  | result :: _ =>
    some ((result.R1, result.R2, result.Err),
      { s with results := chanPop s.results cj.result })

/-- `Blink.CallFuncAsync`: make the job with a fresh result channel and
`AddLast` it; `none` when `AddLast` fails at capacity. -/
def CallFuncAsync {W : Type} (s : Blink W) (funcName : String) (args : List Nat) :
    Option (CallFuncJob × Blink W) :=
  let job : CallFuncJob := { funcName := funcName, args := args, result := s.nextChan }
  match s.calls.AddLast job with
  | some q => some (job, { s with calls := q, nextChan := s.nextChan + 1 })
  | none => none

/-- `Blink.CallFuncAsyncFirst`: as `CallFuncAsync`, with `AddFirst`. -/
def CallFuncAsyncFirst {W : Type} (s : Blink W) (funcName : String) (args : List Nat) :
    Option (CallFuncJob × Blink W) :=
  let job : CallFuncJob := { funcName := funcName, args := args, result := s.nextChan }
  match s.calls.AddFirst job with
  | some q => some (job, { s with calls := q, nextChan := s.nextChan + 1 })
  | none => none

/-- How a blocking entry point proceeds: it has run `doCallFunc` inline, or it
has submitted a job and now sits in `job.Wait()`. -/
inductive CallReturn where
  | inline (o : Outcome Triple)
  | waiting (job : CallFuncJob)
  deriving DecidableEq, Repr

/-- `Blink.CallFunc`, called on the thread whose id is `tid`. -/
def CallFunc {W : Type} (dll : DLL) (tid : Nat) (s : Blink W) (funcName : String)
    (args : List Nat) : Option (CallReturn × Blink W) :=
  if s.threadID ≠ tid then
    (CallFuncAsync s funcName args).map (fun r => (CallReturn.waiting r.1, r.2))
  else
    let r := doCallFunc dll s.procs funcName args
    some (CallReturn.inline r.1, { s with procs := r.2 })

/-- `Blink.CallFuncFirst`, called on the thread whose id is `tid`. -/
def CallFuncFirst {W : Type} (dll : DLL) (tid : Nat) (s : Blink W) (funcName : String)
    (args : List Nat) : Option (CallReturn × Blink W) :=
  if s.threadID ≠ tid then
    (CallFuncAsyncFirst s funcName args).map (fun r => (CallReturn.waiting r.1, r.2))
  else
    let r := doCallFunc dll s.procs funcName args
    some (CallReturn.inline r.1, { s with procs := r.2 })

/-- `Blink.AddJob`: send on `jobs`; `none` while the channel is full. The
returned number is the identity of the `done` channel. -/
def AddJob {W : Type} (s : Blink W) (job : W → W) : Option (Nat × Blink W) :=
  if s.jobs.length < jobsCap then
    some (s.nextChan,
      { s with jobs := s.jobs ++ [{ job := job, done := s.nextChan }],
               nextChan := s.nextChan + 1 })
  else none

/-- `Blink.AddLoop`. -/
def AddLoop {W : Type} (s : Blink W) (job : List (W → W)) : Blink W :=
  { s with jobLoops := s.jobLoops ++ job }

/-! ## Dispatch loop -/

/-- State of the goroutine started by `loopJobLoops`: in the `for` loop,
returned, killed by a panic that escaped, or stuck in a channel send. -/
inductive LoopState where
  | Running
  | Terminated
  | Crashed (v : GoValue)
  | Blocked
  deriving DecidableEq, Repr

/-- The communication clauses of the `select`, in source order, and its
`default` clause. -/
inductive SelectCase where
  | done
  | job
  | call
  | default
  deriving DecidableEq, Repr

/-- The communication clauses that can proceed. -/
def readyCases {W : Type} (s : Blink W) : List SelectCase :=
  (if s.cancelled then [SelectCase.done] else []) ++
  (if s.jobs.isEmpty then [] else [SelectCase.job]) ++
  (if s.calls.ready then [SelectCase.call] else [])

/-- The clause the `select` runs: `default` when no communication can
proceed, else the one of the ready clauses designated by `pick`. -/
def selectCase {W : Type} (pick : Nat) (s : Blink W) : SelectCase :=
  match readyCases s with
  | [] => SelectCase.default
  | c :: cs => (c :: cs).getD (pick % (c :: cs).length) c

/-- Clause `case bj := <-mb.jobs`: run the job, close its `done` channel. -/
def runJob {W : Type} (s : Blink W) : LoopState × Blink W :=
  match s.jobs with
  | [] => (LoopState.Running, s)
  | bj :: rest =>
    let s' := { s with jobs := rest, world := bj.job s.world }
    if bj.done ∈ s.closed then
      (LoopState.Crashed (GoValue.error GoError.closeOfClosed), s')
    else
      (LoopState.Running, { s' with closed := bj.done :: s.closed })

/-- Lines 299 to 304: serve the dequeued `job`: `doCallFunc`, then send the
result on `job.result` (capacity 1). -/
def serveJob {W : Type} (dll : DLL) (s : Blink W) (job : CallFuncJob) :
    LoopState × Blink W :=
  match doCallFunc dll s.procs job.funcName job.args with
  | (Outcome.panicked v, procs) => (LoopState.Crashed v, { s with procs := procs })
  | (Outcome.ret (r1, r2, err), procs) =>
    if (chanBuf s.results job.result).length < 1 then
      (LoopState.Running,
        { s with procs := procs,
                 results := s.results ++ [(job.result, { R1 := r1, R2 := r2, Err := err })] })
    else
      (LoopState.Blocked, { s with procs := procs })

/-- Clause `case ch := <-mb.calls.Chan()`: dequeue and serve. -/
def serviceCall {W : Type} (dll : DLL) (s : Blink W) : LoopState × Blink W :=
  match s.calls.First with
  | none => (LoopState.Running, s)
  | some (job, q) => serveJob dll { s with calls := q } job

/-- Clause `default`: every loop job once, in slice order. -/
def runLoops {W : Type} (s : Blink W) : Blink W :=
  { s with world := s.jobLoops.foldl (fun w queue => queue w) s.world }

/-- One iteration of the `for { select { ... } }` of `loopJobLoops`. -/
def loopIter {W : Type} (dll : DLL) (pick : Nat) (s : Blink W) : LoopState × Blink W :=
  match selectCase pick s with
  | SelectCase.done => (LoopState.Terminated, s)
  | SelectCase.job => runJob s
  | SelectCase.call => serviceCall dll s
  | SelectCase.default => (LoopState.Running, runLoops s)

/-- Iterations of the loop, one scheduler choice each, for as long as the
loop is running. -/
def loopRun {W : Type} (dll : DLL) : List Nat → Blink W → LoopState × Blink W
  | [], s => (LoopState.Running, s)
  | pick :: picks, s =>
    match loopIter dll pick s with
    | (LoopState.Running, s') => loopRun dll picks s'
    | r => r

/-- The requests dequeued by the iterations of `loopRun`, in the order in
which the loop takes them with `First`. -/
def loopServed {W : Type} (dll : DLL) : List Nat → Blink W → List CallFuncJob
  | [], _ => []
  | pick :: picks, s =>
    let taken : List CallFuncJob :=
      match selectCase pick s with
      | SelectCase.call =>
        match s.calls.First with
        | some (job, _) => [job]
        | none => []
      | _ => []
    match loopIter dll pick s with
    | (LoopState.Running, s') => taken ++ loopServed dll picks s'
    | _ => taken

/-- The name and arguments a submitted job was made for. -/
def Submit.request : Submit CallFuncJob → Submit (String × List Nat)
  | Submit.last job => Submit.last (job.funcName, job.args)
  | Submit.first job => Submit.first (job.funcName, job.args)

/-- Calls made in sequence through the asynchronous entry points, nothing
being dequeued meanwhile: `Submit.last (name, args)` is
`CallFuncAsync(name, args...)`, `Submit.first (name, args)` is
`CallFuncAsyncFirst(name, args...)`. The result lists the jobs made, in
submission order, each with the way it was submitted. -/
def submitCalls {W : Type} (s : Blink W) :
    List (Submit (String × List Nat)) → Option (List (Submit CallFuncJob) × Blink W)
  | [] => some ([], s)
  | Submit.last (name, args) :: rest =>
    match CallFuncAsync s name args with
    | none => none
    | some (job, s1) =>
      match submitCalls s1 rest with
      | none => none
      | some (js, s') => some (Submit.last job :: js, s')
  | Submit.first (name, args) :: rest =>
    match CallFuncAsyncFirst s name args with
    | none => none
    | some (job, s1) =>
      match submitCalls s1 rest with
      | none => none
      | some (js, s') => some (Submit.first job :: js, s')

/-- Channel identities are fresh: every result channel that holds a value and
every result channel of a queued request was made before, so it differs from
the channel the next `make` returns. -/
def Fresh {W : Type} (s : Blink W) : Prop :=
  (∀ p ∈ s.results, p.1 < s.nextChan) ∧ (∀ job ∈ s.calls.items, job.result < s.nextChan)

/-- A call made on the procedure cache. -/
inductive ProcOp where
  | find (name : String)
  | call (name : String) (args : List Nat)
  deriving DecidableEq, Repr

/-- The cache after one call, whatever the call's outcome. -/
def ProcOp.run (dll : DLL) (procs : Procs) : ProcOp → Procs
  | ProcOp.find name => (findProc dll procs name).2
  | ProcOp.call name args => (doCallFunc dll procs name args).2

/-- The cache after a sequence of calls. -/
def runOps (dll : DLL) (procs : Procs) (ops : List ProcOp) : Procs :=
  ops.foldl (ProcOp.run dll) procs

/-- The cache holds only what the library resolves. -/
def CacheOK (dll : DLL) (procs : Procs) : Prop :=
  ∀ n p, procs.get n = some p → dll.FindProc n = some p

/-! ## Example data -/

/-- Library of the example runs: `wkeVersion` is the entry point 1, `wkeFoo`
the entry point 2; entry point 1 returns `(args.length, 7)` with the last
error `NOERROR`, and panics with a string when given more than 15 arguments,
as `Proc.Call` does; entry point 2 returns `(5, 0)` with errno 3. -/
def demoDLL : DLL where
  FindProc := fun name =>
    if name = "wkeVersion" then some ⟨1⟩
    else if name = "wkeFoo" then some ⟨2⟩ else none
  Call := fun proc args =>
    if 15 < args.length then
      NativeResult.fault (GoValue.nonError "Call with too many arguments")
    else if proc.addr = 1 then NativeResult.returned args.length 7 (some NOERROR)
    else NativeResult.returned 5 0 (some (GoError.errno 3))

/-- Dispatcher state of the example runs: the state built at start-up with
the loop on thread 1, a host state that counts executed closures, and the
given contents of the job channel and of the call queue. -/
def demoState (cancelled : Bool) (jobs : List (BlinkJob Nat)) (calls : List CallFuncJob) :
    Blink Nat :=
  { emptyBlink 1 0 with
    cancelled := cancelled, jobs := jobs, calls := ⟨999, calls⟩,
    nextChan := jobs.length + calls.length }

/-- A busy dispatcher of the example runs: one job in the job channel and one
registered loop job. -/
def demoBusy : Blink Nat :=
  AddLoop (demoState false [⟨fun w => w + 10, 0⟩] []) [fun w => 2 * w + 1]

/-- The scenario of the spec through the entry points: `CallFuncAsync` of `A`,
`B`, `C`, then `CallFuncAsyncFirst` of `D`, nothing dequeued meanwhile; four
loop iterations then send their results in the order `D`, `A`, `B`, `C`. -/
def scenarioDABC : Option (List Nat × LoopState × List Nat) :=
  match CallFuncAsync (demoState false [] []) "wkeVersion" [1] with
  | none => none
  | some (a, s1) =>
    match CallFuncAsync s1 "wkeVersion" [1, 2] with
    | none => none
    | some (b, s2) =>
      match CallFuncAsync s2 "wkeVersion" [1, 2, 3] with
      | none => none
      | some (c, s3) =>
        match CallFuncAsyncFirst s3 "wkeVersion" [1, 2, 3, 4] with
        | none => none
        | some (d, s4) =>
          let r := loopRun demoDLL [0, 1, 2, 3] s4
          some ([a.result, b.result, c.result, d.result], r.1,
            r.2.results.map (fun p => p.1))

/-! ## The procedure cache -/

theorem Procs.get_erase_ne (m : Procs) (name k : String) (hk : k ≠ name) :
    Procs.get (Procs.erase m name) k = Procs.get m k := by
  induction m with
  | nil => rfl
  | cons kv m ih =>
    obtain ⟨a, b⟩ := kv
    by_cases ha : a = name
    · have hak : a ≠ k := fun h => hk (h ▸ ha)
      simp only [Procs.erase, Procs.get, if_pos ha, if_neg hak]
      exact ih
    · by_cases hak : a = k
      · simp only [Procs.erase, Procs.get, if_neg ha, if_pos hak]
      · simp only [Procs.erase, Procs.get, if_neg ha, if_neg hak]
        exact ih

theorem Procs.erase_of_get_none (m : Procs) (name : String)
    (h : Procs.get m name = none) : Procs.erase m name = m := by
  induction m with
  | nil => rfl
  | cons kv m ih =>
    obtain ⟨a, b⟩ := kv
    by_cases ha : a = name
    · simp [Procs.get, ha] at h
    · simp only [Procs.get, if_neg ha] at h
      simp only [Procs.erase, if_neg ha, ih h]

theorem Procs.get_set_self (m : Procs) (name : String) (proc : Proc) :
    Procs.get (m.set name proc) name = some proc := by
  simp [Procs.set, Procs.get]

theorem Procs.get_set_ne (m : Procs) (name k : String) (proc : Proc) (hk : k ≠ name) :
    Procs.get (m.set name proc) k = Procs.get m k := by
  have hne : name ≠ k := fun h => hk h.symm
  simp only [Procs.set, Procs.get, hne, if_false]
  exact Procs.get_erase_ne m name k hk

theorem findProc_cached (dll : DLL) (procs : Procs) (n : String) (h : Proc)
    (hn : Procs.get procs n = some h) : findProc dll procs n = (Outcome.ret h, procs) := by
  simp [findProc, hn]

theorem findProc_fresh (dll : DLL) (procs : Procs) (n : String) (p : Proc)
    (hn : Procs.get procs n = none) (hm : dll.FindProc n = some p) :
    findProc dll procs n = (Outcome.ret p, procs.set n p) := by
  simp [findProc, hn, DLL.MustFindProc, hm]

theorem findProc_keeps (dll : DLL) (procs : Procs) (k n : String) (h : Proc)
    (hn : Procs.get procs n = some h) : Procs.get (findProc dll procs k).2 n = some h := by
  unfold findProc
  cases hk : Procs.get procs k with
  | some proc => simpa using hn
  | none =>
    have hnk : n ≠ k := by
      intro e; rw [e, hk] at hn; cases hn
    cases hm : dll.FindProc k with
    | none => simpa [DLL.MustFindProc, hm] using hn
    | some p =>
      simp only [DLL.MustFindProc, hm]
      rw [Procs.get_set_ne _ _ _ _ hnk]; exact hn

theorem doCallFunc_procs (dll : DLL) (procs : Procs) (name : String) (args : List Nat) :
    (doCallFunc dll procs name args).2 = (findProc dll procs name).2 := by
  unfold doCallFunc
  rcases hfp : findProc dll procs name with ⟨o, procs'⟩
  cases o with
  | panicked r => rfl
  | ret proc =>
    simp only
    cases dll.Call proc args <;> rfl

theorem ProcOp.run_keeps (dll : DLL) (procs : Procs) (op : ProcOp) (n : String) (h : Proc)
    (hn : Procs.get procs n = some h) : Procs.get (op.run dll procs) n = some h := by
  cases op with
  | find name => exact findProc_keeps dll procs name n h hn
  | call name args =>
    simp only [ProcOp.run, doCallFunc_procs]
    exact findProc_keeps dll procs name n h hn

theorem runOps_keeps (dll : DLL) (ops : List ProcOp) (procs : Procs) (n : String) (h : Proc)
    (hn : Procs.get procs n = some h) : Procs.get (runOps dll procs ops) n = some h := by
  induction ops generalizing procs with
  | nil => exact hn
  | cons op ops ih =>
    simp only [runOps, List.foldl_cons]
    exact ih _ (ProcOp.run_keeps dll procs op n h hn)

theorem findProc_cacheOK (dll : DLL) (procs : Procs) (k : String)
    (hok : CacheOK dll procs) : CacheOK dll (findProc dll procs k).2 := by
  unfold findProc
  cases hk : Procs.get procs k with
  | some proc => simpa using hok
  | none =>
    cases hm : dll.FindProc k with
    | none => simpa [DLL.MustFindProc, hm] using hok
    | some p =>
      simp only [DLL.MustFindProc, hm]
      intro n q hq
      by_cases hnk : n = k
      · subst hnk
        rw [Procs.get_set_self] at hq
        cases hq; exact hm
      · rw [Procs.get_set_ne _ _ _ _ hnk] at hq
        exact hok n q hq

/-- C9: the procedure cache is monotonic. A name `n` cached with handle `h`
is still mapped to `h` after any sequence of `findProc` and `doCallFunc`
calls; `findProc n` returns `h` whatever the library is and leaves the cache
as it is; on an uncached resolvable name `findProc` adds exactly the entry of
that name. -/
theorem procs_cache_monotonic (dll : DLL) (procs : Procs) (n : String) (h : Proc)
    (hn : Procs.get procs n = some h) :
    (∀ ops : List ProcOp, Procs.get (runOps dll procs ops) n = some h) ∧
    (∀ dll' : DLL, findProc dll' procs n = (Outcome.ret h, procs)) ∧
    (∀ (m : String) (p : Proc), Procs.get procs m = none → dll.FindProc m = some p →
      findProc dll procs m = (Outcome.ret p, (m, p) :: procs) ∧
      Procs.get ((m, p) :: procs) m = some p ∧
      ∀ k, k ≠ m → Procs.get ((m, p) :: procs) k = Procs.get procs k) := by
  refine ⟨fun ops => runOps_keeps dll ops procs n h hn,
    fun dll' => findProc_cached dll' procs n h hn, ?_⟩
  intro m p hm hp
  have hset : procs.set m p = (m, p) :: procs := by
    simp [Procs.set, Procs.erase_of_get_none procs m hm]
  refine ⟨by rw [findProc_fresh dll procs m p hm hp, hset], ?_, ?_⟩
  · rw [← hset]; exact Procs.get_set_self procs m p
  · intro k hk
    rw [← hset]; exact Procs.get_set_ne procs m k p hk

theorem procs_cache_monotonic_witness :
    Procs.get [("wkeVersion", (⟨1⟩ : Proc))] "wkeVersion" = some ⟨1⟩ ∧
    Procs.get (runOps demoDLL [("wkeVersion", ⟨1⟩)]
      [ProcOp.find "wkeFoo", ProcOp.call "doesNotExist" [], ProcOp.call "wkeVersion" [2],
        ProcOp.find "wkeVersion"]) "wkeVersion" = some ⟨1⟩ :=
  ⟨by decide,
    (procs_cache_monotonic demoDLL [("wkeVersion", ⟨1⟩)] "wkeVersion" ⟨1⟩ (by decide)).1
      [ProcOp.find "wkeFoo", ProcOp.call "doesNotExist" [], ProcOp.call "wkeVersion" [2],
        ProcOp.find "wkeVersion"]⟩

/-! ## The call invoker -/

theorem doCallFunc_of_findProc (dll : DLL) (procs : Procs) (name : String) (args : List Nat)
    (proc : Proc) (procs' : Procs) (hf : findProc dll procs name = (Outcome.ret proc, procs')) :
    doCallFunc dll procs name args =
      match dll.Call proc args with
      | NativeResult.fault r => (recovered 0 0 r, procs')
      | NativeResult.returned r1 r2 err =>
        (Outcome.ret (r1, r2, if err = some NOERROR then none else err), procs') := by
  simp only [doCallFunc, hf]

/-- C10: sentinel normalisation in `doCallFunc`. For a name that `findProc`
resolves to `proc`: when the native call returns the error `windows.NOERROR`,
`doCallFunc` returns the native `r1`, `r2` and a nil error; when the call
panics with the value `windows.NOERROR`, `doCallFunc` returns a nil error;
when the call returns any other error value, `doCallFunc` returns `r1`, `r2`
and that error unchanged. -/
theorem doCallFunc_sentinel (dll : DLL) (procs : Procs) (name : String) (args : List Nat)
    (proc : Proc) (procs' : Procs)
    (hf : findProc dll procs name = (Outcome.ret proc, procs')) :
    (∀ r1 r2, dll.Call proc args = NativeResult.returned r1 r2 (some NOERROR) →
      doCallFunc dll procs name args = (Outcome.ret (r1, r2, none), procs')) ∧
    (dll.Call proc args = NativeResult.fault (GoValue.error NOERROR) →
      doCallFunc dll procs name args = (Outcome.ret (0, 0, none), procs')) ∧
    (∀ r1 r2 err, dll.Call proc args = NativeResult.returned r1 r2 err →
      err ≠ some NOERROR →
      doCallFunc dll procs name args = (Outcome.ret (r1, r2, err), procs')) := by
  refine ⟨?_, ?_, ?_⟩
  · intro r1 r2 hc
    rw [doCallFunc_of_findProc dll procs name args proc procs' hf, hc]
    simp
  · intro hc
    rw [doCallFunc_of_findProc dll procs name args proc procs' hf, hc]
    simp [recovered]
  · intro r1 r2 err hc hne
    rw [doCallFunc_of_findProc dll procs name args proc procs' hf, hc]
    simp [hne]

theorem doCallFunc_sentinel_witness :
    findProc demoDLL [] "wkeVersion" = (Outcome.ret ⟨1⟩, [("wkeVersion", ⟨1⟩)]) ∧
    doCallFunc demoDLL [] "wkeVersion" [4, 4] =
      (Outcome.ret (2, 7, none), [("wkeVersion", ⟨1⟩)]) :=
  ⟨by decide,
    (doCallFunc_sentinel demoDLL [] "wkeVersion" [4, 4] ⟨1⟩ [("wkeVersion", ⟨1⟩)]
      (by decide)).1 2 7 (by decide)⟩

/-! ## Result channels -/

theorem selectCase_singleton {W : Type} (pick : Nat) (s : Blink W) (c : SelectCase)
    (h : readyCases s = [c]) : selectCase pick s = c := by
  simp [selectCase, h, Nat.mod_one]

theorem selectCase_mem {W : Type} (pick : Nat) (s : Blink W) (h : readyCases s ≠ []) :
    selectCase pick s ∈ readyCases s := by
  unfold selectCase
  cases hr : readyCases s with
  | nil => exact absurd hr h
  | cons c cs =>
    simp only
    have hlt : pick % (c :: cs).length < (c :: cs).length :=
      Nat.mod_lt _ (by simp)
    rw [List.getD_eq_getElem _ _ hlt]
    exact List.getElem_mem _

theorem selectCase_default_iff {W : Type} (pick : Nat) (s : Blink W) :
    selectCase pick s = SelectCase.default ↔
      s.cancelled = false ∧ s.jobs = [] ∧ s.calls.items = [] := by
  constructor
  · intro h
    by_cases hr : readyCases s = []
    · have hr' := hr
      simp only [readyCases, List.append_eq_nil, ite_eq_right_iff, List.cons_ne_self,
        imp_false, ite_eq_left_iff, Queue.ready] at hr'
      obtain ⟨⟨h1, h2⟩, h3⟩ := hr'
      refine ⟨by simpa using h1, ?_, ?_⟩
      · simpa [List.isEmpty_iff] using h2
      · simpa [List.isEmpty_iff] using h3
    · have hm := selectCase_mem pick s hr
      rw [h] at hm
      exfalso
      simp only [readyCases, List.mem_append] at hm
      rcases hm with (hm | hm) | hm
      · split at hm <;> simp at hm
      · split at hm <;> simp at hm
      · split at hm <;> simp at hm
  · rintro ⟨h1, h2, h3⟩
    simp [selectCase, readyCases, h1, h2, h3, Queue.ready]

theorem selectCase_cases {W : Type} (pick : Nat) (s : Blink W) :
    selectCase pick s = SelectCase.default ∨
    (selectCase pick s = SelectCase.done ∧ s.cancelled = true) ∨
    (selectCase pick s = SelectCase.job ∧ s.jobs ≠ []) ∨
    (selectCase pick s = SelectCase.call ∧ s.calls.items ≠ []) := by
  by_cases hr : readyCases s = []
  · left
    simp [selectCase, hr]
  · right
    have hm := selectCase_mem pick s hr
    simp only [readyCases, List.mem_append] at hm
    rcases hm with (hm | hm) | hm
    · left
      split at hm
      · next hc => exact ⟨by simpa using hm, hc⟩
      · simp at hm
    · right; left
      split at hm
      · simp at hm
      · next hj => exact ⟨by simpa using hm, by simpa [List.isEmpty_iff] using hj⟩
    · right; right
      split at hm
      · next hq =>
          exact ⟨by simpa using hm, by simpa [Queue.ready, List.isEmpty_iff] using hq⟩
      · simp at hm

theorem loopIter_call_only {W : Type} (dll : DLL) (pick : Nat) (s : Blink W)
    (job : CallFuncJob) (rest : List CallFuncJob)
    (hc : s.cancelled = false) (hj : s.jobs = []) (hi : s.calls.items = job :: rest) :
    loopIter dll pick s =
      serveJob dll { s with calls := { s.calls with items := rest } } job := by
  have hr : readyCases s = [SelectCase.call] := by
    simp [readyCases, hc, hj, hi, Queue.ready]
  simp only [loopIter, selectCase_singleton pick s _ hr, serviceCall, Queue.First, hi]

theorem serveJob_panicked {W : Type} (dll : DLL) (s : Blink W) (job : CallFuncJob)
    (v : GoValue) (procs' : Procs)
    (hd : doCallFunc dll s.procs job.funcName job.args = (Outcome.panicked v, procs')) :
    serveJob dll s job = (LoopState.Crashed v, { s with procs := procs' }) := by
  simp [serveJob, hd]

theorem serveJob_frame {W : Type} (dll : DLL) (s : Blink W) (job : CallFuncJob) :
    (serveJob dll s job).2.calls = s.calls ∧
    (serveJob dll s job).2.cancelled = s.cancelled ∧
    (serveJob dll s job).2.jobs = s.jobs ∧
    (serveJob dll s job).2.world = s.world ∧
    (serveJob dll s job).2.jobLoops = s.jobLoops ∧
    (serveJob dll s job).2.nextChan = s.nextChan := by
  unfold serveJob
  rcases hd : doCallFunc dll s.procs job.funcName job.args with ⟨o, procs'⟩
  cases o with
  | panicked v => exact ⟨rfl, rfl, rfl, rfl, rfl, rfl⟩
  | ret t =>
    obtain ⟨r1, r2, err⟩ := t
    simp only
    split <;> exact ⟨rfl, rfl, rfl, rfl, rfl, rfl⟩

theorem serviceCall_frame {W : Type} (dll : DLL) (s : Blink W) :
    (serviceCall dll s).2.world = s.world ∧ (serviceCall dll s).2.jobs = s.jobs ∧
    (serviceCall dll s).2.cancelled = s.cancelled ∧
    (serviceCall dll s).2.jobLoops = s.jobLoops ∧
    (serviceCall dll s).1 ≠ LoopState.Terminated ∧
    ∀ job rest, s.calls.items = job :: rest → (serviceCall dll s).2.calls.items = rest := by
  unfold serviceCall Queue.First
  cases hi : s.calls.items with
  | nil =>
    refine ⟨rfl, rfl, rfl, rfl, ?_, ?_⟩
    · intro h; cases h
    · intro job rest h; cases h
  | cons job rest =>
    simp only
    obtain ⟨f1, f2, f3, f4, f5, _⟩ :=
      serveJob_frame dll { s with calls := { s.calls with items := rest } } job
    refine ⟨f4, f3, f2, f5, ?_, ?_⟩
    · unfold serveJob
      rcases doCallFunc dll s.procs job.funcName job.args with ⟨o, procs'⟩
      cases o with
      | panicked v => intro h; cases h
      | ret t =>
        obtain ⟨r1, r2, err⟩ := t
        simp only
        split <;> (intro h; cases h)
    · intro job2 rest2 h
      cases h
      rw [f1]

theorem runJob_frame {W : Type} (s : Blink W) :
    (runJob s).1 ≠ LoopState.Terminated ∧ (runJob s).2.calls = s.calls ∧
    (runJob s).2.results = s.results ∧ (runJob s).2.procs = s.procs ∧
    (runJob s).2.jobLoops = s.jobLoops ∧
    ∀ bj rest, s.jobs = bj :: rest →
      (runJob s).2.jobs = rest ∧ (runJob s).2.world = bj.job s.world := by
  unfold runJob
  cases hj : s.jobs with
  | nil =>
    refine ⟨?_, rfl, rfl, rfl, rfl, ?_⟩
    · intro h; cases h
    · intro bj rest h; cases h
  | cons bj rest =>
    simp only
    split
    · refine ⟨?_, rfl, rfl, rfl, rfl, ?_⟩
      · intro h; cases h
      · intro bj2 rest2 h
        cases h
        exact ⟨rfl, rfl⟩
    · refine ⟨?_, rfl, rfl, rfl, rfl, ?_⟩
      · intro h; cases h
      · intro bj2 rest2 h
        cases h
        exact ⟨rfl, rfl⟩

theorem loopIter_of_case {W : Type} (dll : DLL) (pick : Nat) (s : Blink W) :
    (selectCase pick s = SelectCase.done → loopIter dll pick s = (LoopState.Terminated, s)) ∧
    (selectCase pick s = SelectCase.job → loopIter dll pick s = runJob s) ∧
    (selectCase pick s = SelectCase.call → loopIter dll pick s = serviceCall dll s) ∧
    (selectCase pick s = SelectCase.default →
      loopIter dll pick s = (LoopState.Running, runLoops s)) := by
  refine ⟨?_, ?_, ?_, ?_⟩ <;> intro h <;> simp only [loopIter, h]

theorem selectCase_job_possible {W : Type} (s : Blink W) (hj : s.jobs ≠ []) :
    ∃ pick, selectCase pick s = SelectCase.job := by
  cases hjobs : s.jobs with
  | nil => exact absurd hjobs hj
  | cons bj rest =>
    cases hc : s.cancelled with
    | false =>
      refine ⟨0, ?_⟩
      simp [selectCase, readyCases, hc, hjobs]
    | true =>
      refine ⟨1, ?_⟩
      cases hq : s.calls.ready <;> simp [selectCase, readyCases, hc, hjobs, hq]

theorem selectCase_call_possible {W : Type} (s : Blink W) (hq : s.calls.items ≠ []) :
    ∃ pick, selectCase pick s = SelectCase.call := by
  have hr : s.calls.ready = true := by
    cases hi : s.calls.items with
    | nil => exact absurd hi hq
    | cons job rest => simp [Queue.ready, hi]
  cases hc : s.cancelled with
  | false =>
    cases hjobs : s.jobs with
    | nil =>
      refine ⟨0, ?_⟩
      simp [selectCase, readyCases, hc, hjobs, hr]
    | cons bj rest =>
      refine ⟨1, ?_⟩
      simp [selectCase, readyCases, hc, hjobs, hr]
  | true =>
    cases hjobs : s.jobs with
    | nil =>
      refine ⟨1, ?_⟩
      simp [selectCase, readyCases, hc, hjobs, hr]
    | cons bj rest =>
      refine ⟨2, ?_⟩
      simp [selectCase, readyCases, hc, hjobs, hr]

/-- C1, at a failing input: `wkeVersion` called with 16 arguments, for which
`Proc.Call` panics with a string. The type assertion of the deferred function
panics in turn: `doCallFunc` does not return, and the loop iteration that
serves such a request ends crashed instead of `Running`, with nothing sent on
the result channel. -/
theorem doCallFunc_string_panic_escapes :
    doCallFunc demoDLL [] "wkeVersion" (List.replicate 16 0) =
      (Outcome.panicked (GoValue.error GoError.typeAssertion), [("wkeVersion", ⟨1⟩)]) ∧
    (loopIter demoDLL 0
      (demoState false [] [⟨"wkeVersion", List.replicate 16 0, 0⟩])).1 =
      LoopState.Crashed (GoValue.error GoError.typeAssertion) ∧
    (loopIter demoDLL 0
      (demoState false [] [⟨"wkeVersion", List.replicate 16 0, 0⟩])).2.results = [] := by
  refine ⟨by decide, by decide, by decide⟩

/-- C6: loop jobs run exactly on idle iterations, in registration order. The
`default` clause is the one run if and only if cancellation has not fired and
neither the job channel nor the call queue has a ready item; the iteration
then applies every registered callback once, in slice order, stays `Running`
and changes nothing else (no job run, no call served). On every other
iteration no loop job is invoked: the iteration is the return on
cancellation with the state untouched, or the job clause, after which the
host state is that left by the one job, or the call clause, which leaves the
host state as it is. `AddLoop` appends its arguments, in order, after the
callbacks already registered. -/
theorem loop_jobs_on_idle {W : Type} (dll : DLL) (pick : Nat) (s : Blink W) :
    (selectCase pick s = SelectCase.default ↔
      s.cancelled = false ∧ s.jobs = [] ∧ s.calls.items = []) ∧
    (selectCase pick s = SelectCase.default →
      loopIter dll pick s =
        (LoopState.Running,
          { s with world := s.jobLoops.foldl (fun w cb => cb w) s.world })) ∧
    (selectCase pick s ≠ SelectCase.default →
      loopIter dll pick s = (LoopState.Terminated, s) ∨
      (∃ bj rest, s.jobs = bj :: rest ∧ loopIter dll pick s = runJob s ∧
        (loopIter dll pick s).2.world = bj.job s.world ∧
        (loopIter dll pick s).2.jobs = rest ∧
        (loopIter dll pick s).2.calls = s.calls) ∨
      (loopIter dll pick s = serviceCall dll s ∧
        (loopIter dll pick s).2.world = s.world ∧
        (loopIter dll pick s).2.jobs = s.jobs)) ∧
    (∀ job : List (W → W), (AddLoop s job).jobLoops = s.jobLoops ++ job) ∧
    (∀ regs : List (List (W → W)),
      (regs.foldl AddLoop s).jobLoops = s.jobLoops ++ regs.flatten) ∧
    (∀ (t : Blink (List Nat)) (ids : List Nat),
      t.jobLoops = ids.map (fun i w => w ++ [i]) →
      (runLoops t).world = t.world ++ ids) := by
  refine ⟨selectCase_default_iff pick s, ?_, ?_, fun _ => rfl, ?_, ?_⟩
  · intro h
    simp only [loopIter, h, runLoops]
  · intro hnd
    obtain ⟨c1, c2, c3, _⟩ := loopIter_of_case dll pick s
    rcases selectCase_cases pick s with h | ⟨h, _⟩ | ⟨h, hj⟩ | ⟨h, _⟩
    · exact absurd h hnd
    · left; exact c1 h
    · right; left
      cases hjobs : s.jobs with
      | nil => exact absurd hjobs hj
      | cons bj rest =>
        obtain ⟨_, f2, _, _, _, f6⟩ := runJob_frame s
        obtain ⟨g1, g2⟩ := f6 bj rest hjobs
        refine ⟨bj, rest, rfl, c2 h, ?_, ?_, ?_⟩
        · rw [c2 h]; exact g2
        · rw [c2 h]; exact g1
        · rw [c2 h]; exact f2
    · right; right
      obtain ⟨f1, f2, _⟩ := serviceCall_frame dll s
      refine ⟨c3 h, ?_, ?_⟩
      · rw [c3 h]; exact f1
      · rw [c3 h]; exact f2
  · intro regs
    induction regs generalizing s with
    | nil => simp
    | cons r regs ih =>
      simp only [List.foldl_cons, List.flatten_cons]
      rw [ih (AddLoop s r)]
      simp [AddLoop, List.append_assoc]
  · intro t ids ht
    simp only [runLoops, ht]
    clear ht
    generalize t.world = w
    induction ids generalizing w with
    | nil => simp
    | cons i ids ih =>
      simp only [List.map_cons, List.foldl_cons]
      rw [ih]
      simp

theorem loop_jobs_on_idle_witness :
    (selectCase 5 (AddLoop (AddLoop (demoState false [] []) [fun w => 2 * w + 1])
        [fun w => 3 * w]) = SelectCase.default ∧
      (loopIter demoDLL 5 (AddLoop (AddLoop (demoState false [] []) [fun w => 2 * w + 1])
        [fun w => 3 * w])).2.world = 3) ∧
    (selectCase 5 demoBusy ≠ SelectCase.default ∧
      (loopIter demoDLL 5 demoBusy = (LoopState.Terminated, demoBusy) ∨
        (∃ bj rest, demoBusy.jobs = bj :: rest ∧
          loopIter demoDLL 5 demoBusy = runJob demoBusy ∧
          (loopIter demoDLL 5 demoBusy).2.world = bj.job demoBusy.world ∧
          (loopIter demoDLL 5 demoBusy).2.jobs = rest ∧
          (loopIter demoDLL 5 demoBusy).2.calls = demoBusy.calls) ∨
        (loopIter demoDLL 5 demoBusy = serviceCall demoDLL demoBusy ∧
          (loopIter demoDLL 5 demoBusy).2.world = demoBusy.world ∧
          (loopIter demoDLL 5 demoBusy).2.jobs = demoBusy.jobs)) ∧
      (loopIter demoDLL 5 demoBusy).2.world = 10) :=
  ⟨⟨by decide,
    by
      rw [(loop_jobs_on_idle demoDLL 5 (AddLoop (AddLoop (demoState false [] [])
        [fun w => 2 * w + 1]) [fun w => 3 * w])).2.1 (by decide)]
      rfl⟩,
    ⟨by decide, (loop_jobs_on_idle demoDLL 5 demoBusy).2.2.1 (by decide), by decide⟩⟩

/-- C8, as stated, fails: the `select` chooses among its ready clauses. With
cancellation fired and a job in the channel, an iteration can run the job and
stay `Running`; with cancellation fired and one call queued, it can serve the
call; with cancellation not fired, a job and a call both ready, it can serve
the call and leave the job. -/
theorem cancellation_has_no_precedence :
    ((loopIter demoDLL 1 (demoState true [⟨fun w => w + 1, 0⟩] [])).1 = LoopState.Running ∧
     (loopIter demoDLL 1 (demoState true [⟨fun w => w + 1, 0⟩] [])).2.world = 1) ∧
    ((loopIter demoDLL 1 (demoState true [] [⟨"wkeVersion", [], 0⟩])).1 =
        LoopState.Running ∧
     chanBuf (loopIter demoDLL 1 (demoState true [] [⟨"wkeVersion", [], 0⟩])).2.results 0 =
        [⟨0, 7, none⟩]) ∧
    ((loopIter demoDLL 1
        (demoState false [⟨fun w => w + 1, 0⟩] [⟨"wkeVersion", [], 1⟩])).2.world = 0 ∧
     chanBuf (loopIter demoDLL 1
        (demoState false [⟨fun w => w + 1, 0⟩] [⟨"wkeVersion", [], 1⟩])).2.results 1 =
        [⟨0, 7, none⟩]) := by
  refine ⟨⟨by decide, by decide⟩, ⟨by decide, by decide⟩, ⟨by decide, by decide⟩⟩

/-- C8, amended: once cancellation has fired an iteration never runs the loop
jobs; it ends `Terminated` with the state untouched whenever the `select`
picks the cancellation clause, which can always happen and is certain when
neither the job channel nor the call queue is ready. When the job channel is
ready the `select` can instead pick the job clause: the job is executed and
removed and the loop does not terminate; when the call queue is ready it can
instead pick the call clause: the request is dequeued and served and the loop
does not terminate. With cancellation not fired and a job ready, the
iteration runs the job clause (one job executed, queue, result channels and
cache untouched) when the call queue is not ready; when it is ready too, each
of the job clause and the call clause can be the one run, and no other. -/
theorem cancellation_when_selected {W : Type} (dll : DLL) (pick : Nat) (s : Blink W) :
    (s.cancelled = true → selectCase pick s ≠ SelectCase.default) ∧
    (s.cancelled = true → selectCase 0 s = SelectCase.done) ∧
    (selectCase pick s = SelectCase.done →
      s.cancelled = true ∧ loopIter dll pick s = (LoopState.Terminated, s)) ∧
    (s.cancelled = true → s.jobs = [] → s.calls.items = [] →
      loopIter dll pick s = (LoopState.Terminated, s)) ∧
    (s.cancelled = true →
      loopIter dll pick s = (LoopState.Terminated, s) ∨
      (s.jobs ≠ [] ∧ loopIter dll pick s = runJob s) ∨
      (s.calls.items ≠ [] ∧ loopIter dll pick s = serviceCall dll s)) ∧
    (s.cancelled = false → ∀ (bj : BlinkJob W) (rest : List (BlinkJob W)),
      s.jobs = bj :: rest → s.calls.items = [] →
      loopIter dll pick s = runJob s ∧
      (runJob s).2.jobs = rest ∧ (runJob s).2.world = bj.job s.world ∧
      (runJob s).2.calls = s.calls ∧ (runJob s).2.results = s.results ∧
      (runJob s).2.procs = s.procs) ∧
    (s.cancelled = false → s.jobs ≠ [] →
      loopIter dll pick s = runJob s ∨
      (s.calls.items ≠ [] ∧ loopIter dll pick s = serviceCall dll s)) ∧
    (∀ (bj : BlinkJob W) (rest : List (BlinkJob W)), s.jobs = bj :: rest →
      ∃ p, selectCase p s = SelectCase.job ∧ loopIter dll p s = runJob s ∧
        (loopIter dll p s).1 ≠ LoopState.Terminated ∧
        (loopIter dll p s).2.jobs = rest ∧
        (loopIter dll p s).2.world = bj.job s.world ∧
        (loopIter dll p s).2.calls = s.calls) ∧
    (∀ (job : CallFuncJob) (rest : List CallFuncJob), s.calls.items = job :: rest →
      ∃ p, selectCase p s = SelectCase.call ∧
        loopIter dll p s = serveJob dll { s with calls := { s.calls with items := rest } } job ∧
        (loopIter dll p s).1 ≠ LoopState.Terminated ∧
        (loopIter dll p s).2.calls.items = rest ∧
        (loopIter dll p s).2.jobs = s.jobs ∧
        (loopIter dll p s).2.world = s.world) := by
  refine ⟨?_, ?_, ?_, ?_, ?_, ?_, ?_, ?_, ?_⟩
  · intro hc hd
    have := (selectCase_default_iff pick s).1 hd
    rw [hc] at this
    exact Bool.noConfusion this.1
  · intro hc
    simp [selectCase, readyCases, hc]
  · intro hd
    rcases selectCase_cases pick s with h | ⟨_, hc⟩ | ⟨h, _⟩ | ⟨h, _⟩
    · rw [hd] at h; cases h
    · exact ⟨hc, by simp only [loopIter, hd]⟩
    · rw [hd] at h; cases h
    · rw [hd] at h; cases h
  · intro hc hj hi
    have hr : readyCases s = [SelectCase.done] := by
      simp [readyCases, hc, hj, hi, Queue.ready]
    simp only [loopIter, selectCase_singleton pick s _ hr]
  · intro hc
    rcases selectCase_cases pick s with h | ⟨h, _⟩ | ⟨h, hj⟩ | ⟨h, hq⟩
    · have := (selectCase_default_iff pick s).1 h
      rw [hc] at this
      exact Bool.noConfusion this.1
    · left; simp only [loopIter, h]
    · right; left; exact ⟨hj, by simp only [loopIter, h]⟩
    · right; right; exact ⟨hq, by simp only [loopIter, h]⟩
  · intro hc bj rest hj hi
    have hr : readyCases s = [SelectCase.job] := by
      simp [readyCases, hc, hj, hi, Queue.ready]
    refine ⟨by simp only [loopIter, selectCase_singleton pick s _ hr], ?_⟩
    simp only [runJob, hj]
    split <;> simp
  · intro hc hj
    rcases selectCase_cases pick s with h | ⟨_, hc'⟩ | ⟨h, _⟩ | ⟨h, hq⟩
    · exact absurd ((selectCase_default_iff pick s).1 h).2.1 hj
    · rw [hc] at hc'; cases hc'
    · left; simp only [loopIter, h]
    · right; exact ⟨hq, by simp only [loopIter, h]⟩
  · intro bj rest hj
    obtain ⟨p, hp⟩ := selectCase_job_possible s (by rw [hj]; exact List.cons_ne_nil _ _)
    have e := (loopIter_of_case dll p s).2.1 hp
    obtain ⟨f1, f2, _, _, _, f6⟩ := runJob_frame s
    obtain ⟨g1, g2⟩ := f6 bj rest hj
    refine ⟨p, hp, e, ?_, ?_, ?_, ?_⟩
    · rw [e]; exact f1
    · rw [e]; exact g1
    · rw [e]; exact g2
    · rw [e]; exact f2
  · intro job rest hi
    obtain ⟨p, hp⟩ := selectCase_call_possible s (by rw [hi]; exact List.cons_ne_nil _ _)
    have e := (loopIter_of_case dll p s).2.2.1 hp
    obtain ⟨f1, f2, _, _, f5, f6⟩ := serviceCall_frame dll s
    refine ⟨p, hp, ?_, ?_, ?_, ?_, ?_⟩
    · rw [e]
      simp only [serviceCall, Queue.First, hi]
    · rw [e]; exact f5
    · rw [e]; exact f6 job rest hi
    · rw [e]; exact f2
    · rw [e]; exact f1

theorem cancellation_when_selected_witness :
    ((demoState true [⟨fun w => w + 1, 0⟩] [⟨"wkeVersion", [], 1⟩]).cancelled = true ∧
      selectCase 0 (demoState true [⟨fun w => w + 1, 0⟩] [⟨"wkeVersion", [], 1⟩]) =
        SelectCase.done) ∧
    ((demoState true [⟨fun w => w + 1, 0⟩] [⟨"wkeVersion", [], 1⟩]).jobs =
        [⟨fun w => w + 1, 0⟩] ∧
      ∃ p, selectCase p (demoState true [⟨fun w => w + 1, 0⟩] [⟨"wkeVersion", [], 1⟩]) =
          SelectCase.job ∧
        loopIter demoDLL p (demoState true [⟨fun w => w + 1, 0⟩] [⟨"wkeVersion", [], 1⟩]) =
          runJob (demoState true [⟨fun w => w + 1, 0⟩] [⟨"wkeVersion", [], 1⟩]) ∧
        (loopIter demoDLL p
          (demoState true [⟨fun w => w + 1, 0⟩] [⟨"wkeVersion", [], 1⟩])).1 ≠
          LoopState.Terminated ∧
        (loopIter demoDLL p
          (demoState true [⟨fun w => w + 1, 0⟩] [⟨"wkeVersion", [], 1⟩])).2.jobs = [] ∧
        (loopIter demoDLL p
          (demoState true [⟨fun w => w + 1, 0⟩] [⟨"wkeVersion", [], 1⟩])).2.world =
          (fun w => w + 1)
            (demoState true [⟨fun w => w + 1, 0⟩] [⟨"wkeVersion", [], 1⟩]).world ∧
        (loopIter demoDLL p
          (demoState true [⟨fun w => w + 1, 0⟩] [⟨"wkeVersion", [], 1⟩])).2.calls =
          (demoState true [⟨fun w => w + 1, 0⟩] [⟨"wkeVersion", [], 1⟩]).calls) :=
  ⟨⟨rfl,
      (cancellation_when_selected demoDLL 3
        (demoState true [⟨fun w => w + 1, 0⟩] [⟨"wkeVersion", [], 1⟩])).2.1 rfl⟩,
    ⟨rfl,
      (cancellation_when_selected demoDLL 3
        (demoState true [⟨fun w => w + 1, 0⟩] [⟨"wkeVersion", [], 1⟩])).2.2.2.2.2.2.2.1
        ⟨fun w => w + 1, 0⟩ [] rfl⟩⟩

/-! ## The synchronous facade -/

theorem AddLast_room {α : Type} (q : Queue α) (x : α) (h : q.items.length < q.cap) :
    q.AddLast x = some { q with items := q.items ++ [x] } := by
  simp [Queue.AddLast, h]

theorem AddFirst_room {α : Type} (q : Queue α) (x : α) (h : q.items.length < q.cap) :
    q.AddFirst x = some { q with items := x :: q.items } := by
  simp [Queue.AddFirst, h]

theorem CallFuncAsync_eq {W : Type} (s : Blink W) (name : String) (args : List Nat) :
    CallFuncAsync s name args =
      (s.calls.AddLast ⟨name, args, s.nextChan⟩).map
        (fun q => (⟨name, args, s.nextChan⟩, { s with calls := q, nextChan := s.nextChan + 1 })) := by
  simp only [CallFuncAsync]
  split <;> rename_i h <;> rw [h] <;> rfl

theorem CallFuncAsyncFirst_eq {W : Type} (s : Blink W) (name : String) (args : List Nat) :
    CallFuncAsyncFirst s name args =
      (s.calls.AddFirst ⟨name, args, s.nextChan⟩).map
        (fun q => (⟨name, args, s.nextChan⟩, { s with calls := q, nextChan := s.nextChan + 1 })) := by
  simp only [CallFuncAsyncFirst]
  split <;> rename_i h <;> rw [h] <;> rfl

theorem CallFunc_other_thread {W : Type} (dll : DLL) (tid : Nat) (s : Blink W)
    (name : String) (args : List Nat) (h : tid ≠ s.threadID) :
    CallFunc dll tid s name args =
      (s.calls.AddLast ⟨name, args, s.nextChan⟩).map
        (fun q => (CallReturn.waiting ⟨name, args, s.nextChan⟩,
          { s with calls := q, nextChan := s.nextChan + 1 })) := by
  have h' : s.threadID ≠ tid := fun e => h e.symm
  simp only [CallFunc, if_pos h', CallFuncAsync_eq, Option.map_map]
  rfl

theorem CallFuncFirst_other_thread {W : Type} (dll : DLL) (tid : Nat) (s : Blink W)
    (name : String) (args : List Nat) (h : tid ≠ s.threadID) :
    CallFuncFirst dll tid s name args =
      (s.calls.AddFirst ⟨name, args, s.nextChan⟩).map
        (fun q => (CallReturn.waiting ⟨name, args, s.nextChan⟩,
          { s with calls := q, nextChan := s.nextChan + 1 })) := by
  have h' : s.threadID ≠ tid := fun e => h e.symm
  simp only [CallFuncFirst, if_pos h', CallFuncAsyncFirst_eq, Option.map_map]
  rfl

/-- C3: the inline path on the dedicated thread. Called on the recorded
thread, `CallFunc` and `CallFuncFirst` return exactly the outcome of
`doCallFunc` and change nothing but the procedure cache: no job and no
channel is made, the call queue and the job channel are as before. Called on
another thread, `CallFunc` performs one `AddLast` and `CallFuncFirst` one
`AddFirst` of a single new request and then wait on it; when the queue has
room the queue holds that one request more, at the back or at the front. -/
theorem callFunc_inline_on_dedicated_thread {W : Type} (dll : DLL) (tid : Nat)
    (s : Blink W) (name : String) (args : List Nat) :
    (tid = s.threadID →
      CallFunc dll tid s name args =
        some (CallReturn.inline (doCallFunc dll s.procs name args).1,
          { s with procs := (doCallFunc dll s.procs name args).2 }) ∧
      CallFuncFirst dll tid s name args =
        some (CallReturn.inline (doCallFunc dll s.procs name args).1,
          { s with procs := (doCallFunc dll s.procs name args).2 })) ∧
    (tid ≠ s.threadID →
      CallFunc dll tid s name args =
        (s.calls.AddLast ⟨name, args, s.nextChan⟩).map
          (fun q => (CallReturn.waiting ⟨name, args, s.nextChan⟩,
            { s with calls := q, nextChan := s.nextChan + 1 })) ∧
      CallFuncFirst dll tid s name args =
        (s.calls.AddFirst ⟨name, args, s.nextChan⟩).map
          (fun q => (CallReturn.waiting ⟨name, args, s.nextChan⟩,
            { s with calls := q, nextChan := s.nextChan + 1 })) ∧
      (s.calls.items.length < s.calls.cap →
        (CallFunc dll tid s name args).map (fun r => r.2.calls.items) =
          some (s.calls.items ++ [⟨name, args, s.nextChan⟩]) ∧
        (CallFuncFirst dll tid s name args).map (fun r => r.2.calls.items) =
          some (⟨name, args, s.nextChan⟩ :: s.calls.items))) := by
  refine ⟨?_, ?_⟩
  · intro h
    subst h
    simp [CallFunc, CallFuncFirst]
  · intro h
    refine ⟨CallFunc_other_thread dll tid s name args h,
      CallFuncFirst_other_thread dll tid s name args h, ?_⟩
    intro hroom
    rw [CallFunc_other_thread dll tid s name args h,
      CallFuncFirst_other_thread dll tid s name args h,
      AddLast_room _ _ hroom, AddFirst_room _ _ hroom]
    exact ⟨rfl, rfl⟩

theorem callFunc_inline_on_dedicated_thread_witness :
    (1 = (demoState false [] [⟨"wkeFoo", [], 0⟩]).threadID ∧
      (CallFunc demoDLL 1 (demoState false [] [⟨"wkeFoo", [], 0⟩]) "wkeVersion" [8]).map
          (fun r => (r.1, r.2.calls.items, r.2.nextChan)) =
        some (CallReturn.inline (Outcome.ret (1, 7, none)), [⟨"wkeFoo", [], 0⟩], 1)) ∧
    (2 ≠ (demoState false [] [⟨"wkeFoo", [], 0⟩]).threadID ∧
      (CallFunc demoDLL 2 (demoState false [] [⟨"wkeFoo", [], 0⟩]) "wkeVersion" [8]).map
          (fun r => r.2.calls.items) =
        some [⟨"wkeFoo", [], 0⟩, ⟨"wkeVersion", [8], 1⟩]) :=
  ⟨⟨rfl, by
      rw [((callFunc_inline_on_dedicated_thread demoDLL 1
        (demoState false [] [⟨"wkeFoo", [], 0⟩]) "wkeVersion" [8]).1 rfl).1]
      decide⟩,
    ⟨by decide,
      (((callFunc_inline_on_dedicated_thread demoDLL 2
        (demoState false [] [⟨"wkeFoo", [], 0⟩]) "wkeVersion" [8]).2 (by decide)).2.2
        (by decide)).1⟩⟩

/-- C5, as stated, fails: after `CancelCtx` a call from another thread is
added to the call queue by each of the four entry points, and no error is
produced; `CallFunc` and `CallFuncFirst` wait on the request. -/
theorem post_shutdown_submission_enqueued :
    (CallFunc demoDLL 2 (CancelCtx (demoState false [] [])) "wkeFinalize" []).map
        (fun r => (r.1, r.2.calls.items)) =
      some (CallReturn.waiting ⟨"wkeFinalize", [], 0⟩, [⟨"wkeFinalize", [], 0⟩]) ∧
    (CallFuncFirst demoDLL 2 (CancelCtx (demoState false [] [])) "wkeFinalize" []).map
        (fun r => (r.1, r.2.calls.items)) =
      some (CallReturn.waiting ⟨"wkeFinalize", [], 0⟩, [⟨"wkeFinalize", [], 0⟩]) ∧
    (CallFuncAsync (CancelCtx (demoState false [] [])) "wkeFinalize" []).map
        (fun r => (r.1, r.2.calls.items)) =
      some (⟨"wkeFinalize", [], 0⟩, [⟨"wkeFinalize", [], 0⟩]) ∧
    (CallFuncAsyncFirst (CancelCtx (demoState false [] [])) "wkeFinalize" []).map
        (fun r => (r.1, r.2.calls.items)) =
      some (⟨"wkeFinalize", [], 0⟩, [⟨"wkeFinalize", [], 0⟩]) := by
  refine ⟨by decide, by decide, by decide, by decide⟩

/-- C5, amended: with the cancellation signal fired, a call submitted from a
thread other than the dedicated one is handled as at any other time: each of
the four entry points performs its one `AddLast` or `AddFirst` of a new
request, which fails only when the queue is at capacity, and no error is
produced; with room in the queue the request is added and `CallFunc` and
`CallFuncFirst` wait on it. -/
theorem submission_ignores_cancellation {W : Type} (dll : DLL) (tid : Nat)
    (s : Blink W) (name : String) (args : List Nat)
    (_hc : s.cancelled = true) (htid : tid ≠ s.threadID) :
    CallFuncAsync s name args =
      (s.calls.AddLast ⟨name, args, s.nextChan⟩).map
        (fun q => (⟨name, args, s.nextChan⟩, { s with calls := q, nextChan := s.nextChan + 1 })) ∧
    CallFuncAsyncFirst s name args =
      (s.calls.AddFirst ⟨name, args, s.nextChan⟩).map
        (fun q => (⟨name, args, s.nextChan⟩, { s with calls := q, nextChan := s.nextChan + 1 })) ∧
    CallFunc dll tid s name args =
      (CallFuncAsync s name args).map (fun r => (CallReturn.waiting r.1, r.2)) ∧
    CallFuncFirst dll tid s name args =
      (CallFuncAsyncFirst s name args).map (fun r => (CallReturn.waiting r.1, r.2)) ∧
    (s.calls.items.length < s.calls.cap →
      CallFuncAsync s name args =
        some (⟨name, args, s.nextChan⟩,
          { s with calls := { s.calls with items := s.calls.items ++ [⟨name, args, s.nextChan⟩] },
                   nextChan := s.nextChan + 1 }) ∧
      CallFuncAsyncFirst s name args =
        some (⟨name, args, s.nextChan⟩,
          { s with calls := { s.calls with items := ⟨name, args, s.nextChan⟩ :: s.calls.items },
                   nextChan := s.nextChan + 1 })) := by
  have h' : s.threadID ≠ tid := fun e => htid e.symm
  refine ⟨CallFuncAsync_eq s name args, CallFuncAsyncFirst_eq s name args, ?_, ?_, ?_⟩
  · simp only [CallFunc, if_pos h']
  · simp only [CallFuncFirst, if_pos h']
  · intro hroom
    rw [CallFuncAsync_eq, CallFuncAsyncFirst_eq, AddLast_room _ _ hroom,
      AddFirst_room _ _ hroom]
    exact ⟨rfl, rfl⟩

theorem submission_ignores_cancellation_witness :
    (demoState true [] []).cancelled = true ∧ 2 ≠ (demoState true [] []).threadID ∧
    CallFunc demoDLL 2 (demoState true [] []) "wkeFinalize" [] =
      (CallFuncAsync (demoState true [] []) "wkeFinalize" []).map
        (fun r => (CallReturn.waiting r.1, r.2)) :=
  ⟨rfl, by decide,
    (submission_ignores_cancellation demoDLL 2 (demoState true [] []) "wkeFinalize" []
      rfl (by decide)).2.2.1⟩

/-- The whole asynchronous path on an example: `CallFuncAsync` from the
initial state, one loop iteration, then `Wait`, against the inline call. -/
theorem async_path_example :
    (match CallFuncAsync (demoState false [] []) "wkeVersion" [3, 3, 3] with
      | none => none
      | some (job, s1) =>
        match loopIter demoDLL 0 s1 with
        | (LoopState.Running, s2) => (job.Wait s2).map (fun r => r.1)
        | _ => none) = some (3, 7, none) ∧
    (CallFunc demoDLL 1 (demoState false [] []) "wkeVersion" [3, 3, 3]).map (fun r => r.1) =
      some (CallReturn.inline (Outcome.ret (3, 7, none))) := by
  refine ⟨by decide, by decide⟩

/-! ## The call queue -/

theorem drain_go_eq {α : Type} (n : Nat) (q : Queue α) :
    Queue.drainGo n q = q.items.take n := by
  induction n generalizing q with
  | zero => simp [Queue.drainGo]
  | succ n ih =>
    obtain ⟨cap, items⟩ := q
    cases items with
    | nil => simp [Queue.drainGo, Queue.First]
    | cons x rest => simp [Queue.drainGo, Queue.First, ih]

theorem drain_eq_items {α : Type} (q : Queue α) : q.drain = q.items := by
  simp [Queue.drain, drain_go_eq]

theorem submitAll_items {α : Type} (subs : List (Submit α)) (q q' : Queue α)
    (h : q.submitAll subs = some q') :
    q'.items = (firstsOf subs).reverse ++ q.items ++ lastsOf subs ∧ q'.cap = q.cap := by
  induction subs generalizing q with
  | nil =>
    simp only [Queue.submitAll, Option.some.injEq] at h
    subst h
    simp [firstsOf, lastsOf]
  | cons sub subs ih =>
    simp only [Queue.submitAll] at h
    cases hs : q.submit sub with
    | none => rw [hs] at h; cases h
    | some q1 =>
      rw [hs] at h
      obtain ⟨h1, h2⟩ := ih q1 h
      cases sub with
      | last x =>
        simp only [Queue.submit, Queue.AddLast] at hs
        split at hs
        · cases hs
          simp [h1, h2, firstsOf, lastsOf]
        · cases hs
      | first x =>
        simp only [Queue.submit, Queue.AddFirst] at hs
        split at hs
        · cases hs
          simp [h1, h2, firstsOf, lastsOf]
        · cases hs

theorem submitAll_append {α : Type} (pre post : List (Submit α)) (q q' : Queue α)
    (h : q.submitAll (pre ++ post) = some q') :
    ∃ qp, q.submitAll pre = some qp ∧ qp.submitAll post = some q' := by
  induction pre generalizing q with
  | nil => exact ⟨q, rfl, h⟩
  | cons sub pre ih =>
    simp only [List.cons_append, Queue.submitAll] at h ⊢
    cases hs : q.submit sub with
    | none => rw [hs] at h; cases h
    | some q1 =>
      rw [hs] at h
      exact ih q1 h

theorem CallFuncAsync_some {W : Type} (s s1 : Blink W) (name : String) (args : List Nat)
    (job : CallFuncJob) (h : CallFuncAsync s name args = some (job, s1)) :
    job = ⟨name, args, s.nextChan⟩ ∧ s.calls.AddLast job = some s1.calls ∧
    s1 = { s with calls := s1.calls, nextChan := s.nextChan + 1 } ∧
    s1.calls.items = s.calls.items ++ [job] := by
  rw [CallFuncAsync_eq] at h
  cases hq : s.calls.AddLast ⟨name, args, s.nextChan⟩ with
  | none => rw [hq] at h; cases h
  | some q =>
    rw [hq] at h
    simp only [Option.map_some', Option.some.injEq, Prod.mk.injEq] at h
    obtain ⟨hj, hs⟩ := h
    subst hj; subst hs
    refine ⟨rfl, hq, rfl, ?_⟩
    simp only [Queue.AddLast] at hq
    split at hq
    · cases hq; rfl
    · cases hq

theorem CallFuncAsyncFirst_some {W : Type} (s s1 : Blink W) (name : String)
    (args : List Nat) (job : CallFuncJob)
    (h : CallFuncAsyncFirst s name args = some (job, s1)) :
    job = ⟨name, args, s.nextChan⟩ ∧ s.calls.AddFirst job = some s1.calls ∧
    s1 = { s with calls := s1.calls, nextChan := s.nextChan + 1 } ∧
    s1.calls.items = job :: s.calls.items := by
  rw [CallFuncAsyncFirst_eq] at h
  cases hq : s.calls.AddFirst ⟨name, args, s.nextChan⟩ with
  | none => rw [hq] at h; cases h
  | some q =>
    rw [hq] at h
    simp only [Option.map_some', Option.some.injEq, Prod.mk.injEq] at h
    obtain ⟨hj, hs⟩ := h
    subst hj; subst hs
    refine ⟨rfl, hq, rfl, ?_⟩
    simp only [Queue.AddFirst] at hq
    split at hq
    · cases hq; rfl
    · cases hq

theorem submitCalls_last {W : Type} (s s' : Blink W) (name : String) (args : List Nat)
    (rest : List (Submit (String × List Nat))) (js : List (Submit CallFuncJob))
    (h : submitCalls s (Submit.last (name, args) :: rest) = some (js, s')) :
    ∃ job s1 js2, CallFuncAsync s name args = some (job, s1) ∧
      submitCalls s1 rest = some (js2, s') ∧ js = Submit.last job :: js2 := by
  simp only [submitCalls] at h
  cases h1 : CallFuncAsync s name args with
  | none => rw [h1] at h; cases h
  | some r =>
    obtain ⟨job, s1⟩ := r
    rw [h1] at h
    simp only at h
    cases h2 : submitCalls s1 rest with
    | none => rw [h2] at h; cases h
    | some r2 =>
      obtain ⟨js2, s2⟩ := r2
      rw [h2] at h
      simp only [Option.some.injEq, Prod.mk.injEq] at h
      obtain ⟨hj, hs⟩ := h
      subst hj; subst hs
      exact ⟨job, s1, js2, rfl, h2, rfl⟩

theorem submitCalls_first {W : Type} (s s' : Blink W) (name : String) (args : List Nat)
    (rest : List (Submit (String × List Nat))) (js : List (Submit CallFuncJob))
    (h : submitCalls s (Submit.first (name, args) :: rest) = some (js, s')) :
    ∃ job s1 js2, CallFuncAsyncFirst s name args = some (job, s1) ∧
      submitCalls s1 rest = some (js2, s') ∧ js = Submit.first job :: js2 := by
  simp only [submitCalls] at h
  cases h1 : CallFuncAsyncFirst s name args with
  | none => rw [h1] at h; cases h
  | some r =>
    obtain ⟨job, s1⟩ := r
    rw [h1] at h
    simp only at h
    cases h2 : submitCalls s1 rest with
    | none => rw [h2] at h; cases h
    | some r2 =>
      obtain ⟨js2, s2⟩ := r2
      rw [h2] at h
      simp only [Option.some.injEq, Prod.mk.injEq] at h
      obtain ⟨hj, hs⟩ := h
      subst hj; subst hs
      exact ⟨job, s1, js2, rfl, h2, rfl⟩

theorem submitCalls_submitAll {W : Type} (reqs : List (Submit (String × List Nat)))
    (s s' : Blink W) (js : List (Submit CallFuncJob))
    (h : submitCalls s reqs = some (js, s')) :
    s.calls.submitAll js = some s'.calls ∧ js.map Submit.request = reqs ∧
    s'.cancelled = s.cancelled ∧ s'.jobs = s.jobs := by
  induction reqs generalizing s js with
  | nil =>
    simp only [submitCalls, Option.some.injEq, Prod.mk.injEq] at h
    obtain ⟨hj, hs⟩ := h
    subst hj; subst hs
    exact ⟨rfl, rfl, rfl, rfl⟩
  | cons req rest ih =>
    cases req with
    | last x =>
      obtain ⟨name, args⟩ := x
      obtain ⟨job, s1, js2, h1, h2, hj⟩ := submitCalls_last s s' name args rest js h
      obtain ⟨hjob, hadd, hs1, _⟩ := CallFuncAsync_some s s1 name args job h1
      obtain ⟨i1, i2, i3, i4⟩ := ih s1 js2 h2
      subst hj
      refine ⟨?_, ?_, ?_, ?_⟩
      · simp only [Queue.submitAll, Queue.submit, hadd]
        exact i1
      · simp only [List.map_cons, Submit.request, i2, hjob]
      · rw [i3, hs1]
      · rw [i4, hs1]
    | first x =>
      obtain ⟨name, args⟩ := x
      obtain ⟨job, s1, js2, h1, h2, hj⟩ := submitCalls_first s s' name args rest js h
      obtain ⟨hjob, hadd, hs1, _⟩ := CallFuncAsyncFirst_some s s1 name args job h1
      obtain ⟨i1, i2, i3, i4⟩ := ih s1 js2 h2
      subst hj
      refine ⟨?_, ?_, ?_, ?_⟩
      · simp only [Queue.submitAll, Queue.submit, hadd]
        exact i1
      · simp only [List.map_cons, Submit.request, i2, hjob]
      · rw [i3, hs1]
      · rw [i4, hs1]

theorem submitCalls_append {W : Type} (r1 r2 : List (Submit (String × List Nat)))
    (s s' : Blink W) (js : List (Submit CallFuncJob))
    (h : submitCalls s (r1 ++ r2) = some (js, s')) :
    ∃ pre sp post, submitCalls s r1 = some (pre, sp) ∧
      submitCalls sp r2 = some (post, s') ∧ js = pre ++ post := by
  induction r1 generalizing s js with
  | nil => exact ⟨[], s, js, rfl, h, rfl⟩
  | cons req rest ih =>
    cases req with
    | last x =>
      obtain ⟨name, args⟩ := x
      obtain ⟨job, s1, js2, h1, h2, hj⟩ :=
        submitCalls_last s s' name args (rest ++ r2) js h
      obtain ⟨pre, sp, post, e1, e2, e3⟩ := ih s1 js2 h2
      refine ⟨Submit.last job :: pre, sp, post, ?_, e2, ?_⟩
      · simp only [submitCalls, h1, e1]
      · rw [hj, e3]; rfl
    | first x =>
      obtain ⟨name, args⟩ := x
      obtain ⟨job, s1, js2, h1, h2, hj⟩ :=
        submitCalls_first s s' name args (rest ++ r2) js h
      obtain ⟨pre, sp, post, e1, e2, e3⟩ := ih s1 js2 h2
      refine ⟨Submit.first job :: pre, sp, post, ?_, e2, ?_⟩
      · simp only [submitCalls, h1, e1]
      · rw [hj, e3]; rfl

theorem loopServed_order {W : Type} (dll : DLL) (picks : List Nat) (s : Blink W)
    (hc : s.cancelled = false) (hj : s.jobs = []) :
    ∃ later, s.calls.items = loopServed dll picks s ++ later := by
  induction picks generalizing s with
  | nil => exact ⟨s.calls.items, rfl⟩
  | cons pick picks ih =>
    cases hi : s.calls.items with
    | nil =>
      have hd : selectCase pick s = SelectCase.default :=
        (selectCase_default_iff pick s).2 ⟨hc, hj, hi⟩
      obtain ⟨later, hl⟩ := ih (runLoops s) hc hj
      refine ⟨later, ?_⟩
      simp only [loopServed, loopIter, hd, List.nil_append]
      rw [← hl]
      exact hi.symm
    | cons job rest =>
      have hr : readyCases s = [SelectCase.call] := by
        simp [readyCases, hc, hj, hi, Queue.ready]
      have hsel := selectCase_singleton pick s _ hr
      have hit := loopIter_call_only dll pick s job rest hc hj hi
      obtain ⟨f1, f2, f3, _⟩ :=
        serveJob_frame dll { s with calls := { s.calls with items := rest } } job
      simp only [loopServed, hsel, Queue.First, hi]
      rw [hit]
      rcases hres : serveJob dll { s with calls := { s.calls with items := rest } } job
        with ⟨st, s2⟩
      rw [hres] at f1 f2 f3
      simp only at f1 f2 f3
      cases st with
      | Running =>
        obtain ⟨later, hl⟩ := ih s2 (f2.trans hc) (f3.trans hj)
        refine ⟨later, ?_⟩
        have h2 : s2.calls.items = rest := by rw [f1]
        simp only [List.singleton_append, List.cons_append, List.nil_append,
          List.cons.injEq, true_and]
        rw [← hl, h2]
      | Terminated => exact ⟨rest, rfl⟩
      | Crashed v => exact ⟨rest, rfl⟩
      | Blocked => exact ⟨rest, rfl⟩

/-- C2: priority service order of the call queue. After calls submitted in
sequence through `CallFuncAsync` (`AddLast`) and `CallFuncAsyncFirst`
(`AddFirst`) that all complete while nothing is dequeued, the jobs made are
those of the submitted names and arguments and they are handed out in the
order: the `AddFirst` jobs, latest first, then the requests pending before,
then the `AddLast` jobs in submission order. So a job inserted by
`CallFuncAsyncFirst` is dequeued before every request that was pending when
it was inserted, the `CallFuncAsync` jobs are dequeued in their submission
order, and the loop, when only the call queue is ready, serves the first
request of that order, keeps the others queued, and over its iterations takes
the requests in exactly that order. -/
theorem queue_priority_order {W : Type} (s s' : Blink W)
    (reqs : List (Submit (String × List Nat))) (js : List (Submit CallFuncJob))
    (h : submitCalls s reqs = some (js, s')) :
    js.map Submit.request = reqs ∧
    s'.calls.drain = (firstsOf js).reverse ++ s.calls.items ++ lastsOf js ∧
    (∀ r1 name args r2, reqs = r1 ++ Submit.first (name, args) :: r2 →
      ∃ pre sp x s1 l r, submitCalls s r1 = some (pre, sp) ∧
        CallFuncAsyncFirst sp name args = some (x, s1) ∧
        x.funcName = name ∧ x.args = args ∧
        s'.calls.drain = l ++ x :: sp.calls.items ++ r) ∧
    List.Sublist (lastsOf js) s'.calls.drain ∧
    (∀ (dll : DLL) (pick : Nat) (job : CallFuncJob) (rest : List CallFuncJob),
      s'.cancelled = false → s'.jobs = [] → s'.calls.drain = job :: rest →
      loopIter dll pick s' =
        serveJob dll { s' with calls := { s'.calls with items := rest } } job) ∧
    (∀ (dll : DLL) (picks : List Nat), s'.cancelled = false → s'.jobs = [] →
      ∃ later, s'.calls.drain = loopServed dll picks s' ++ later) := by
  obtain ⟨hall, hreq, _, _⟩ := submitCalls_submitAll reqs s s' js h
  have hitems := (submitAll_items js s.calls s'.calls hall).1
  refine ⟨hreq, by rw [drain_eq_items, hitems], ?_, ?_, ?_, ?_⟩
  · intro r1 name args r2 hsub
    subst hsub
    obtain ⟨pre, sp, post, hpre, hpost, _⟩ :=
      submitCalls_append r1 (Submit.first (name, args) :: r2) s s' js h
    obtain ⟨x, s1, js2, hx, hrest, _⟩ := submitCalls_first sp s' name args r2 post hpost
    obtain ⟨hjob, _, _, hx1⟩ := CallFuncAsyncFirst_some sp s1 name args x hx
    obtain ⟨hall2, _, _, _⟩ := submitCalls_submitAll r2 s1 s' js2 hrest
    have hitems2 := (submitAll_items js2 s1.calls s'.calls hall2).1
    refine ⟨pre, sp, x, s1, (firstsOf js2).reverse, lastsOf js2, hpre, hx, ?_, ?_, ?_⟩
    · rw [hjob]
    · rw [hjob]
    · simp [drain_eq_items, hitems2, hx1]
  · rw [drain_eq_items, hitems]
    exact List.sublist_append_right _ _
  · intro dll pick job rest hc hj hd
    rw [drain_eq_items] at hd
    exact loopIter_call_only dll pick s' job rest hc hj hd
  · intro dll picks hc hj
    rw [drain_eq_items]
    exact loopServed_order dll picks s' hc hj

theorem queue_priority_order_witness :
    submitCalls (demoState false [] [])
        [Submit.last ("A", []), Submit.last ("B", []), Submit.last ("C", []),
          Submit.first ("D", [])] =
      some ([Submit.last ⟨"A", [], 0⟩, Submit.last ⟨"B", [], 1⟩, Submit.last ⟨"C", [], 2⟩,
          Submit.first ⟨"D", [], 3⟩],
        { demoState false [] [] with
          calls := ⟨999, [⟨"D", [], 3⟩, ⟨"A", [], 0⟩, ⟨"B", [], 1⟩, ⟨"C", [], 2⟩]⟩,
          nextChan := 4 }) ∧
    Queue.drain ({ demoState false [] [] with
          calls := ⟨999, [⟨"D", [], 3⟩, ⟨"A", [], 0⟩, ⟨"B", [], 1⟩, ⟨"C", [], 2⟩]⟩,
          nextChan := 4 } : Blink Nat).calls =
      [⟨"D", [], 3⟩] ++ [] ++ [⟨"A", [], 0⟩, ⟨"B", [], 1⟩, ⟨"C", [], 2⟩] :=
  ⟨rfl,
    (queue_priority_order (demoState false [] [])
      { demoState false [] [] with
          calls := ⟨999, [⟨"D", [], 3⟩, ⟨"A", [], 0⟩, ⟨"B", [], 1⟩, ⟨"C", [], 2⟩]⟩,
          nextChan := 4 }
      [Submit.last ("A", []), Submit.last ("B", []), Submit.last ("C", []),
        Submit.first ("D", [])]
      [Submit.last ⟨"A", [], 0⟩, Submit.last ⟨"B", [], 1⟩, Submit.last ⟨"C", [], 2⟩,
        Submit.first ⟨"D", [], 3⟩] rfl).2.1⟩

theorem scenarioDABC_order :
    scenarioDABC = some ([0, 1, 2, 3], LoopState.Running, [3, 0, 1, 2]) := by
  decide

/-! ## The two calling styles -/

theorem fresh_CallFuncAsyncFirst {W : Type} (s s1 : Blink W) (name : String)
    (args : List Nat) (job : CallFuncJob) (hf : Fresh s)
    (h : CallFuncAsyncFirst s name args = some (job, s1)) : Fresh s1 := by
  obtain ⟨hjob, _, hs1, hitems⟩ := CallFuncAsyncFirst_some s s1 name args job h
  have hn : s1.nextChan = s.nextChan + 1 := by rw [hs1]
  have hr : s1.results = s.results := by rw [hs1]
  constructor
  · intro p hp
    rw [hr] at hp
    rw [hn]
    exact Nat.lt_succ_of_lt (hf.1 p hp)
  · intro j hj
    rw [hitems, List.mem_cons] at hj
    rw [hn]
    rcases hj with hj | hj
    · rw [hj, hjob]; exact Nat.lt_succ_self _
    · exact Nat.lt_succ_of_lt (hf.2 j hj)

theorem fresh_serveJob {W : Type} (dll : DLL) (s : Blink W) (job : CallFuncJob)
    (hf : Fresh s) (hj : job.result < s.nextChan) : Fresh (serveJob dll s job).2 := by
  unfold serveJob
  rcases doCallFunc dll s.procs job.funcName job.args with ⟨o, procs'⟩
  cases o with
  | panicked v => exact hf
  | ret t =>
    obtain ⟨r1, r2, err⟩ := t
    simp only
    split
    · constructor
      · intro p hp
        simp only [List.mem_append, List.mem_singleton] at hp
        rcases hp with hp | hp
        · exact hf.1 p hp
        · rw [hp]; exact hj
      · exact hf.2
    · exact hf

theorem fresh_loopIter {W : Type} (dll : DLL) (pick : Nat) (s : Blink W) (hf : Fresh s) :
    Fresh (loopIter dll pick s).2 := by
  obtain ⟨c1, c2, c3, c4⟩ := loopIter_of_case dll pick s
  cases hsel : selectCase pick s with
  | done => rw [c1 hsel]; exact hf
  | job =>
    rw [c2 hsel]
    obtain ⟨_, f2, f3, _⟩ := runJob_frame s
    have hn : (runJob s).2.nextChan = s.nextChan := by
      unfold runJob
      cases s.jobs with
      | nil => rfl
      | cons bj rest => simp only; split <;> rfl
    constructor
    · intro p hp; rw [f3] at hp; rw [hn]; exact hf.1 p hp
    · intro j hj; rw [f2] at hj; rw [hn]; exact hf.2 j hj
  | call =>
    rw [c3 hsel]
    unfold serviceCall Queue.First
    cases hi : s.calls.items with
    | nil => exact hf
    | cons job rest =>
      simp only
      apply fresh_serveJob
      · constructor
        · exact hf.1
        · intro j hj
          exact hf.2 j (by rw [hi]; exact List.mem_cons_of_mem _ hj)
      · exact hf.2 job (by rw [hi]; exact List.mem_cons_self _ _)
  | default => rw [c4 hsel]; exact hf

end BlinkModel
